import Mathlib

/-!
Verification of the cron scheduler and rate limiters of the clarkgo repository.

The definitions below are shallow embeddings of the Go source files
`pkg/schedule/cron.go`, `pkg/schedule/schedule.go` and
`pkg/ratelimit/ratelimit.go`:

* Go strings are modelled as `List Char` (with `String.toList` at the
  boundary); `strings.Split`, `strings.Fields`, `strings.Contains` and
  `strconv.Atoi` are re-implemented below with the same semantics on the
  inputs that occur here (`atoi` ignores 64-bit overflow, which no claim
  exercises).
* Go `time.Time` is modelled as a natural number of seconds since Go's zero
  time (January 1, year 1, 00:00:00, a Monday), in a fixed (UTC-like) zone;
  calendar components are computed with the standard proleptic-Gregorian
  civil-from-days conversion.  `time.Time{}` (the zero time) is `0`.
* Go `float64` quantities of the token bucket are modelled as rationals.
* The `for i := start; i <= max; i += step` loop of `parseField` need not
  terminate in Go (e.g. step 0); it is embedded with explicit fuel, and
  `none` marks exhaustion.  The fuel supplied by `parsePart` is sufficient
  for every positive step, so `none` appears exactly where the Go loop does
  not terminate (a non-positive step with start ≤ max; for negative steps Go
  strictly speaking wraps around after about 2^63 iterations, which we also
  model as divergence).
-/

set_option autoImplicit false

namespace Clarkgo

/-! ## Go string helpers -/

/-- Splits a character list at every character satisfying `p`, keeping empty
segments, as Go's `strings.Split` / `strings.FieldsFunc` boundary behaviour. -/
def splitPred : List Char → (Char → Bool) → List (List Char)
  | [], _ => [[]]
  | c :: rest, p =>
    if p c then [] :: splitPred rest p
    else
      match splitPred rest p with
      | [] => [[c]]
      | first :: others => (c :: first) :: others

/-- Go's `strings.Split(s, sep)` for a one-character separator. -/
def splitChar (l : List Char) (sep : Char) : List (List Char) :=
  splitPred l (fun c => c = sep)

/-- Go's `unicode.IsSpace` restricted to the ASCII whitespace characters that
can occur in a cron string. -/
def isGoSpace (c : Char) : Bool :=
  c = ' ' || c = '\t' || c = '\n' || c = '\r' || c = '\x0b' || c = '\x0c'

/-- Go's `strings.Fields`: the maximal runs of non-whitespace characters. -/
def goFields (l : List Char) : List (List Char) :=
  (splitPred l isGoSpace).filter (fun f => f ≠ [])

/-- Numeric value of a digit run (most significant first). -/
def digitsVal (l : List Char) : Nat :=
  l.foldl (fun a c => a * 10 + (c.toNat - 48)) 0

/-- Shared body of `atoi`: a non-empty all-digit run with the given sign. -/
def atoiDigits (l : List Char) (sign : ℤ) : Except String ℤ :=
  if l = [] then .error "invalid syntax"
  else if l.all Char.isDigit then .ok (sign * (digitsVal l : ℤ))
  else .error "invalid syntax"

/-- Go's `strconv.Atoi`: optional sign, then a non-empty digit run.
Overflow of 64-bit `int` is not modelled (no claim reaches it). -/
def atoi : List Char → Except String ℤ
  | '+' :: rest => atoiDigits rest 1
  | '-' :: rest => atoiDigits rest (-1)
  | l => atoiDigits l 1

/-! ## Cron expression parsing (`pkg/schedule/cron.go`) -/

/-- The value list built by Go's `for i := lo; i <= hi; i++` append loop. -/
def rangeList (lo hi : ℤ) : List ℤ :=
  (List.range (hi + 1 - lo).toNat).map (fun k : ℕ => lo + (k : ℤ))

/-- The range branch of `parseField` (cron.go lines 84-98): the bounds check
`start < min || end > max || start > end` and the append loop. -/
def rangeValues (start endv min max : ℤ) : Except String (List ℤ) :=
  if start < min ∨ endv > max ∨ start > endv then
    .error "invalid range"
  else
    .ok (rangeList start endv)

/-- The step-branch loop `for i := start; i <= max; i += step` of
`parseField` (cron.go line 115), with explicit fuel; `none` is fuel
exhaustion, which on sufficient fuel marks a non-terminating Go loop. -/
def stepLoop : Nat → ℤ → ℤ → ℤ → List ℤ → Option (List ℤ)
  | 0, _, _, _, _ => none
  | fuel + 1, i, max, step, acc =>
    if i ≤ max then stepLoop fuel (i + step) max step (acc ++ [i])
    else some acc

/-- One comma-separated sub-term of a cron field (the body of the
`for _, part := range parts` loop of `parseField`). -/
def parsePart (part : List Char) (min max : ℤ) : Option (Except String (List ℤ)) :=
  if part.contains '-' then
    match splitChar part '-' with
    | [s1, s2] =>
      match atoi s1 with
      | .error e => some (.error e)
      | .ok start =>
        match atoi s2 with
        | .error e => some (.error e)
        | .ok endv => some (rangeValues start endv min max)
    | _ => some (.error "invalid range")
  else if part.contains '/' then
    match splitChar part '/' with
    | [s1, s2] =>
      match atoi s2 with
      | .error e => some (.error e)
      | .ok step =>
        match (if s1 = ['*'] then Except.ok min else atoi s1) with
        | .error e => some (.error e)
        | .ok start =>
          (stepLoop ((max - start).toNat + 2) start max step []).map Except.ok
    | _ => some (.error "invalid step")
  else
    match atoi part with
    | .error e => some (.error e)
    | .ok v =>
      if v < min ∨ v > max then some (.error "value out of range")
      else some (.ok [v])

/-- Folds `parsePart` over the comma-separated parts, short-circuiting on the
first error, accumulating `values` in order, as `parseField`'s loop does. -/
def parseParts : List (List Char) → ℤ → ℤ → List ℤ → Option (Except String (List ℤ))
  | [], _, _, acc => some (.ok acc)
  | p :: rest, min, max, acc =>
    match parsePart p min max with
    | none => none
    | some (.error e) => some (.error e)
    | some (.ok vs) => parseParts rest min max (acc ++ vs)

/-- Go's `parseField(field, min, max)` (cron.go lines 66-134). `none` means
the Go code does not terminate (only possible through a step term). -/
def parseField (field : List Char) (min max : ℤ) : Option (Except String (List ℤ)) :=
  if field = ['*'] then some (.ok (rangeList min max))
  else parseParts (splitChar field ',') min max []

/-- A parsed cron expression: the five value lists of cron.go. -/
structure CronExpression where
  minute : List ℤ
  hour : List ℤ
  dayOfMonth : List ℤ
  month : List ℤ
  dayOfWeek : List ℤ
deriving DecidableEq, Repr

instance {ε α : Type} [DecidableEq ε] [DecidableEq α] : DecidableEq (Except ε α) := fun x y =>
  match x, y with
  | .error a, .error b =>
    if h : a = b then isTrue (by rw [h]) else isFalse (by intro hh; cases hh; exact h rfl)
  | .ok a, .ok b =>
    if h : a = b then isTrue (by rw [h]) else isFalse (by intro hh; cases hh; exact h rfl)
  | .error _, .ok _ => isFalse (by intro hh; cases hh)
  | .ok _, .error _ => isFalse (by intro hh; cases hh)

/-- Error/result plumbing of `ParseCron`: wraps a field's error with the
field-name prefix and otherwise continues with the parsed values. -/
def bindField (x : Option (Except String (List ℤ))) (msg : String)
    (k : List ℤ → Option (Except String CronExpression)) :
    Option (Except String CronExpression) :=
  match x with
  | none => none
  | some (.error e) => some (.error (msg ++ e))
  | some (.ok vs) => k vs

/-- Go's `ParseCron` (cron.go lines 23-63): splits into exactly five
whitespace-separated fields and parses each against its declared range.
`none` means the Go code does not terminate. -/
def ParseCron (expr : String) : Option (Except String CronExpression) :=
  match goFields expr.toList with
  | [f0, f1, f2, f3, f4] =>
    bindField (parseField f0 0 59) "invalid minute field: " (fun minuteL =>
    bindField (parseField f1 0 23) "invalid hour field: " (fun hourL =>
    bindField (parseField f2 1 31) "invalid day field: " (fun dayL =>
    bindField (parseField f3 1 12) "invalid month field: " (fun monthL =>
    bindField (parseField f4 0 6) "invalid weekday field: " (fun weekdayL =>
    some (.ok ⟨minuteL, hourL, dayL, monthL, weekdayL⟩))))))
  | fs => some (.error ("invalid cron expression: expected 5 fields, got " ++ toString fs.length))

/-! ## Time model and `Next` / `IsDue` (`pkg/schedule/cron.go`) -/

/-- Minute-of-hour of a time given in seconds since Go's zero time. -/
def minuteOf (t : Nat) : Nat := t / 60 % 60

/-- Hour-of-day of a time given in seconds since Go's zero time. -/
def hourOf (t : Nat) : Nat := t / 3600 % 24

/-- Proleptic-Gregorian civil date `(year, month, day)` of a day count,
day 0 being January 1 of year 1 (Go's zero time). -/
def civilOfDays (days : Nat) : Nat × Nat × Nat :=
  let z := days + 306
  let era := z / 146097
  let doe := z % 146097
  let yoe := (doe - doe / 1460 + doe / 36524 - doe / 146096) / 365
  let doy := doe - (365 * yoe + yoe / 4 - yoe / 100)
  let mp := (5 * doy + 2) / 153
  let d := doy - (153 * mp + 2) / 5 + 1
  let m := if mp < 10 then mp + 3 else mp - 9
  (yoe + era * 400 + (if m ≤ 2 then 1 else 0), m, d)

/-- Day-of-month (1-31), as Go's `t.Day()`. -/
def dayOf (t : Nat) : Nat := (civilOfDays (t / 86400)).2.2

/-- Month (1-12), as Go's `int(t.Month())`. -/
def monthOf (t : Nat) : Nat := (civilOfDays (t / 86400)).2.1

/-- Weekday (0 = Sunday), as Go's `int(t.Weekday())`; Go's zero time is a
Monday. -/
def weekdayOf (t : Nat) : Nat := (t / 86400 + 1) % 7

/-- Go's `contains(slice, value)` (cron.go lines 164-171). -/
def containsVal (slice : List ℤ) (value : ℤ) : Bool :=
  slice.any (fun v => v = value)

/-- Go's `(*CronExpression).matches(t)` (cron.go lines 155-161): all five
fields must contain the matching component of `t`. -/
def CronExpression.matches (c : CronExpression) (t : Nat) : Bool :=
  containsVal c.minute (minuteOf t) &&
  containsVal c.hour (hourOf t) &&
  containsVal c.dayOfMonth (dayOf t) &&
  containsVal c.month (monthOf t) &&
  containsVal c.dayOfWeek (weekdayOf t)

/-- Go's `IsDue` (cron.go lines 174-176). -/
def CronExpression.IsDue (c : CronExpression) (t : Nat) : Bool :=
  c.matches t

/-- The minute-by-minute search loop of `Next` (cron.go lines 142-148),
with the iteration bound as fuel; `0` (Go's zero time) on exhaustion. -/
def nextLoop (c : CronExpression) : Nat → Nat → Nat
  | 0, _ => 0
  | fuel + 1, t => if c.matches t then t else nextLoop c fuel (t + 60)

/-- The minute the search of `Next` starts at:
`from.Truncate(time.Minute).Add(time.Minute)`. -/
def nextBase (fromT : Nat) : Nat := fromT / 60 * 60 + 60

/-- Go's `(*CronExpression).Next(from)` (cron.go lines 137-152): searches at
most 525600 minutes from the minute after `from`, returning Go's zero time
(modelled as `0`) when nothing matches. -/
def CronExpression.Next (c : CronExpression) (fromT : Nat) : Nat :=
  nextLoop c 525600 (nextBase fromT)

/-! ## Scheduler log (`pkg/schedule/schedule.go`) -/

/-- A task execution log record (schedule.go lines 40-48).  Times are
seconds since Go's zero time, the duration is in seconds. -/
structure TaskLog where
  taskID : String
  taskName : String
  startTime : Nat
  endTime : Nat
  duration : ℤ
  success : Bool
  errorText : String
deriving DecidableEq, Repr

/-- The `maxLogSize` installed by `NewScheduler` (schedule.go line 58). -/
def schedulerDefaultMaxLogSize : Nat := 1000

/-- Go's `(*Scheduler).addLog` (schedule.go lines 252-262): append, then if
the log exceeds `maxLogSize` keep only the last `maxLogSize` entries. -/
def addLog (maxLogSize : Nat) (logs : List TaskLog) (log : TaskLog) : List TaskLog :=
  if (logs ++ [log]).length > maxLogSize then
    (logs ++ [log]).drop ((logs ++ [log]).length - maxLogSize)
  else logs ++ [log]

/-! ## Per-task overlap guard (`pkg/schedule/schedule.go`, `runTask`)

`runTask` (schedule.go lines 207-249) brackets the handler call with two
critical sections on the task's lock: the first returns immediately if
`IsRunning` is already set and otherwise sets it; the second clears it after
the handler returns.  Because each critical section executes atomically
under the lock, an arbitrary interleaving of tick dispatches and `RunNow`
calls for one task is a sequence of these two atomic events.  `inFlight`
counts handler executions that have started and not yet finished.  A
`finish` can only be produced by an in-flight run; a `finish` event in a
state with no run in flight has no source in the code and is modelled as a
no-op. -/

/-- The two atomic critical sections of `runTask` on one task's lock. -/
inductive TaskEvent where
  | tryStart
  | finish
deriving DecidableEq, Repr

/-- Observable per-task state: the `IsRunning` flag and the number of
handler executions currently in flight. -/
structure TaskState where
  isRunning : Bool
  inFlight : Nat
deriving DecidableEq, Repr

/-- One atomic critical section of `runTask`: `tryStart` is the
check-and-set block (a no-op that skips the handler when `IsRunning` is
already set), `finish` the block clearing the flag when a run completes. -/
def taskStep (s : TaskState) : TaskEvent → TaskState
  | .tryStart => if s.isRunning then s else { isRunning := true, inFlight := s.inFlight + 1 }
  | .finish => if s.isRunning then { isRunning := false, inFlight := s.inFlight - 1 } else s

/-- Runs a sequence of critical sections from a state. -/
def taskRun (s : TaskState) : List TaskEvent → TaskState
  | [] => s
  | e :: es => taskRun (taskStep s e) es

/-- A task starts idle with no execution in flight. -/
def taskInit : TaskState := ⟨false, 0⟩

/-! ## Rate limiters (`pkg/ratelimit/ratelimit.go`)

Wall-clock instants and the `float64` token count are modelled as
rationals; `rate`, `capacity`, `limit` and `n` are the Go `int` values. -/

/-- Per-key token bucket state (ratelimit.go lines 31-35). -/
structure Bucket where
  tokens : ℚ
  lastCheck : ℚ
deriving DecidableEq

/-- The bucket a fresh key receives (ratelimit.go lines 69-72): full
capacity, last checked now. -/
def TokenBucket.newBucket (capacity : ℤ) (now : ℚ) : Bucket :=
  ⟨(capacity : ℚ), now⟩

/-- The refill-and-clamp prefix of `TokenBucket.AllowN` (ratelimit.go lines
82-91): add `elapsed × rate` tokens, then clamp to `capacity`. -/
def TokenBucket.refill (rate capacity : ℤ) (b : Bucket) (now : ℚ) : ℚ :=
  if b.tokens + (now - b.lastCheck) * (rate : ℚ) > (capacity : ℚ) then (capacity : ℚ)
  else b.tokens + (now - b.lastCheck) * (rate : ℚ)

/-- Go's `(*TokenBucket).AllowN` on one key's bucket (ratelimit.go lines
61-101): refill, clamp, then debit `n` if at least `n` tokens remain. -/
def TokenBucket.allowN (rate capacity : ℤ) (b : Bucket) (now : ℚ) (n : ℤ) : Bool × Bucket :=
  if TokenBucket.refill rate capacity b now ≥ (n : ℚ) then
    (true, ⟨TokenBucket.refill rate capacity b now - (n : ℚ), now⟩)
  else (false, ⟨TokenBucket.refill rate capacity b now, now⟩)

/-- Go's `(*SlidingWindow).AllowN` on one key's request list (ratelimit.go
lines 180-221): drop timestamps at or before `now - window`, then admit `n`
requests iff the window stays within `limit`. -/
def SlidingWindow.allowN (limit : ℤ) (window : ℚ) (reqs : List ℚ) (now : ℚ) (n : ℤ) :
    Bool × List ℚ :=
  if ((reqs.filter (fun r => r > now - window)).length : ℤ) + n ≤ limit then
    (true, reqs.filter (fun r => r > now - window) ++ List.replicate n.toNat now)
  else (false, reqs.filter (fun r => r > now - window))

/-- Per-key fixed window state (ratelimit.go lines 315-319). -/
structure FixedWindowData where
  count : ℤ
  resetTime : ℚ
deriving DecidableEq

/-- The state a fresh key receives (ratelimit.go lines 337-340). -/
def FixedWindow.newData (window now : ℚ) : FixedWindowData :=
  ⟨0, now + window⟩

/-- The window-rollover prefix of `FixedWindow.AllowN` (ratelimit.go lines
349-353): reset the counter when `now` has passed the deadline. -/
def FixedWindow.rollover (window : ℚ) (d : FixedWindowData) (now : ℚ) : FixedWindowData :=
  if now > d.resetTime then ⟨0, now + window⟩ else d

/-- Go's `(*FixedWindow).AllowN` on one key's state (ratelimit.go lines
327-362). -/
def FixedWindow.allowN (limit : ℤ) (window : ℚ) (d : FixedWindowData) (now : ℚ) (n : ℤ) :
    Bool × FixedWindowData :=
  if (FixedWindow.rollover window d now).count + n ≤ limit then
    (true, ⟨(FixedWindow.rollover window d now).count + n,
            (FixedWindow.rollover window d now).resetTime⟩)
  else (false, FixedWindow.rollover window d now)

/-- One call against one key of a limiter: an `AllowN(key, n)` observed at
wall-clock instant `now`, or a `Reset(key)`. -/
inductive Op where
  | allowN (now : ℚ) (n : ℤ)
  | reset
deriving DecidableEq

/-- A sequence of calls against one token bucket key; `none` is the absent
key (fresh, or deleted by `Reset`), populated on first `AllowN` exactly as
the Go map code does. -/
def TokenBucket.runOps (rate capacity : ℤ) : Option Bucket → List Op → Option Bucket
  | st, [] => st
  | st, Op.allowN now n :: ops =>
    let b := match st with
      | none => TokenBucket.newBucket capacity now
      | some b => b
    TokenBucket.runOps rate capacity (some (TokenBucket.allowN rate capacity b now n).2) ops
  | _, Op.reset :: ops => TokenBucket.runOps rate capacity none ops

/-- A sequence of calls against one sliding window key (a fresh or reset
key holds the empty request list, as in the Go code). -/
def SlidingWindow.runOps (limit : ℤ) (window : ℚ) : List ℚ → List Op → List ℚ
  | reqs, [] => reqs
  | reqs, Op.allowN now n :: ops =>
    SlidingWindow.runOps limit window (SlidingWindow.allowN limit window reqs now n).2 ops
  | _, Op.reset :: ops => SlidingWindow.runOps limit window [] ops

/-- A sequence of calls against one fixed window key. -/
def FixedWindow.runOps (limit : ℤ) (window : ℚ) : Option FixedWindowData → List Op → Option FixedWindowData
  | st, [] => st
  | st, Op.allowN now n :: ops =>
    let d := match st with
      | none => FixedWindow.newData window now
      | some d => d
    FixedWindow.runOps limit window (some (FixedWindow.allowN limit window d now n).2) ops
  | _, Op.reset :: ops => FixedWindow.runOps limit window none ops

/-- The result of `ParseCron "* * * * *"`: every field full. -/
def cStar : CronExpression :=
  ⟨rangeList 0 59, rangeList 0 23, rangeList 1 31, rangeList 1 12, rangeList 0 6⟩

/-- The result of `ParseCron "* 50/1 * * *"`: the hour field is empty
because the step start 50 exceeds the hour maximum 23 and the step loop
body never runs. -/
def cEmptyHour : CronExpression :=
  ⟨rangeList 0 59, [], rangeList 1 31, rangeList 1 12, rangeList 0 6⟩

/-- Every `AllowN` in the call sequence requests a non-negative `n`. -/
def opsNonneg : List Op → Bool
  | [] => true
  | Op.allowN _ n :: rest => decide (0 ≤ n) && opsNonneg rest
  | Op.reset :: rest => opsNonneg rest

/-! ## Lemmas about the field parser -/

theorem splitPred_ne_nil (l : List Char) (p : Char → Bool) : splitPred l p ≠ [] := by
  induction l with
  | nil => simp [splitPred]
  | cons c rest ih =>
    simp only [splitPred]
    split
    · simp
    · split <;> simp_all

theorem splitChar_ne_nil (l : List Char) (sep : Char) : splitChar l sep ≠ [] :=
  splitPred_ne_nil l _

theorem rangeList_ne_nil {lo hi : ℤ} (h : lo ≤ hi) : rangeList lo hi ≠ [] := by
  simp only [rangeList, ne_eq, List.map_eq_nil_iff, List.range_eq_nil]
  omega

theorem mem_rangeList {lo hi x : ℤ} : x ∈ rangeList lo hi ↔ lo ≤ x ∧ x ≤ hi := by
  simp only [rangeList, List.mem_map, List.mem_range]
  constructor
  · rintro ⟨k, hk, rfl⟩
    omega
  · intro ⟨h1, h2⟩
    exact ⟨(x - lo).toNat, by omega, by omega⟩

theorem parsePart_ok_ne_nil {part : List Char} {min max : ℤ} {vs : List ℤ}
    (hs : part.contains '/' = false)
    (h : parsePart part min max = some (Except.ok vs)) : vs ≠ [] := by
  unfold parsePart at h
  split at h
  · -- range branch
    split at h
    · split at h
      · exact absurd h (by simp)
      · split at h
        · exact absurd h (by simp)
        · unfold rangeValues at h
          split at h
          · exact absurd h (by simp)
          · rename_i hcond
            injection h with h
            injection h with h
            subst h
            exact rangeList_ne_nil (by omega)
    · exact absurd h (by simp)
  · split at h
    · -- step branch: excluded by the hypothesis
      rename_i hnot hslash
      rw [hs] at hslash
      exact absurd hslash (by simp)
    · -- single value branch
      split at h
      · exact absurd h (by simp)
      · split at h
        · exact absurd h (by simp)
        · injection h with h
          injection h with h
          subst h
          simp

theorem parseParts_ok_ne_nil :
    ∀ (parts : List (List Char)) (min max : ℤ) (acc vs : List ℤ),
      (∀ p ∈ parts, p.contains '/' = false) →
      parseParts parts min max acc = some (Except.ok vs) →
      (acc ≠ [] ∨ parts ≠ []) → vs ≠ [] := by
  intro parts
  induction parts with
  | nil =>
    intro min max acc vs _ h hne
    simp only [parseParts, Option.some.injEq, Except.ok.injEq] at h
    subst h
    rcases hne with hne | hne
    · exact hne
    · exact absurd rfl hne
  | cons p rest ih =>
    intro min max acc vs hall h _
    simp only [parseParts] at h
    split at h
    · exact absurd h (by simp)
    · exact absurd h (by simp)
    · rename_i ps hps
      have hpne : ps ≠ [] :=
        parsePart_ok_ne_nil (hall p (by simp)) hps
      exact ih min max (acc ++ ps) vs (fun q hq => hall q (by simp [hq])) h
        (Or.inl (by simp [hpne]))

/-! ## Claim C2 -/

/-- C2 (counterexample): the claim says a field whose parse produces zero
values makes `ParseCron` fail, and that every returned `CronExpression` has
five non-empty sets.  In fact `ParseCron "* 50/1 * * *"` succeeds: the hour
field's step term starts at 50 > 23, its loop body never runs, and the
resulting `CronExpression` has an empty hour set. -/
theorem c2_parseCron_accepts_empty_field :
    ParseCron "* 50/1 * * *" = some (Except.ok cEmptyHour) ∧ cEmptyHour.hour = [] := by
  constructor
  · decide
  · rfl

/-- C2 (amended): an out-of-range single value, an invalid range, and any
unparsable integer each fail the whole parse, but a step term whose start
exceeds the field's maximum yields zero values without an error, so only
step terms can produce an empty set: a field none of whose comma-separated
sub-terms is a step term parses, when it succeeds, to a non-empty list. -/
theorem c2_no_step_field_nonempty (field : List Char) (min max : ℤ) (vs : List ℤ)
    (hrange : min ≤ max)
    (hnostep : ∀ p ∈ splitChar field ',', p.contains '/' = false)
    (h : parseField field min max = some (Except.ok vs)) : vs ≠ [] := by
  unfold parseField at h
  split at h
  · injection h with h
    injection h with h
    subst h
    exact rangeList_ne_nil hrange
  · exact parseParts_ok_ne_nil _ min max [] vs hnostep h (Or.inr (splitChar_ne_nil _ _))

/-- C2 witness: the minute field range term 1-5 parses to the non-empty
list of integers 1 to 5. -/
theorem c2_no_step_field_nonempty_witness : ([1, 2, 3, 4, 5] : List ℤ) ≠ [] :=
  c2_no_step_field_nonempty "1-5".toList 0 59 [1, 2, 3, 4, 5]
    (by norm_num) (by decide) (by decide)

/-! ## Claim C3 -/

/-- C3: a range sub-term a-b checked against a field's declared range
[min,max] yields exactly the integers a to b inclusive when
min ≤ a ≤ b ≤ max, and an error whenever a > b, a < min or b > max. -/
theorem c3_range_term_spec (a b min max : ℤ) :
    (min ≤ a → a ≤ b → b ≤ max →
      rangeValues a b min max = Except.ok (rangeList a b) ∧
      (∀ x : ℤ, x ∈ rangeList a b ↔ a ≤ x ∧ x ≤ b)) ∧
    (a > b ∨ a < min ∨ b > max → ∃ e, rangeValues a b min max = Except.error e) := by
  constructor
  · intro h1 h2 h3
    refine ⟨?_, fun x => mem_rangeList⟩
    unfold rangeValues
    rw [if_neg]
    omega
  · intro h
    refine ⟨"invalid range", ?_⟩
    unfold rangeValues
    rw [if_pos]
    omega

/-- C3 witness: 1-5 against [0,59] yields exactly 1,2,3,4,5; 5-3 is an
error. -/
theorem c3_range_term_spec_witness :
    (rangeValues 1 5 0 59 = Except.ok (rangeList 1 5) ∧
      (∀ x : ℤ, x ∈ rangeList 1 5 ↔ 1 ≤ x ∧ x ≤ 5)) ∧
    (∃ e, rangeValues 5 3 0 59 = Except.error e) :=
  ⟨(c3_range_term_spec 1 5 0 59).1 (by norm_num) (by norm_num) (by norm_num),
   (c3_range_term_spec 5 3 0 59).2 (Or.inl (by norm_num))⟩

/-! ## Claim C9 -/

theorem stepLoop_step_zero {max : ℤ} :
    ∀ (fuel : Nat) (i : ℤ) (acc : List ℤ), i ≤ max → stepLoop fuel i max 0 acc = none := by
  intro fuel
  induction fuel with
  | zero => intro i acc _; rfl
  | succ n ih =>
    intro i acc hi
    simp only [stepLoop, if_pos hi, add_zero]
    exact ih i (acc ++ [i]) hi

/-- C9: the claim says `ParseCron` terminates on every input, in particular
on a step term with step value 0.  The code's step loop
`for i := start; i <= max; i += step` never advances when step = 0, so on
the input "*/0 * * * *" it runs forever: in the fuel embedding the loop
exhausts every fuel bound, and `ParseCron` diverges (`none`). -/
theorem c9_step_zero_diverges :
    (∀ (fuel : Nat) (acc : List ℤ), stepLoop fuel 0 59 0 acc = none) ∧
    ParseCron "*/0 * * * *" = none := by
  constructor
  · intro fuel acc
    exact stepLoop_step_zero fuel 0 acc (by norm_num)
  · decide

/-! ## Lemmas about the minute search loop -/

theorem nextLoop_spec (c : CronExpression) : ∀ (fuel t0 : Nat),
    (nextLoop c fuel t0 = 0 ∧ ∀ k < fuel, c.matches (t0 + 60 * k) = false) ∨
    (∃ k < fuel, nextLoop c fuel t0 = t0 + 60 * k ∧ c.matches (t0 + 60 * k) = true ∧
      ∀ j < k, c.matches (t0 + 60 * j) = false) := by
  intro fuel
  induction fuel with
  | zero =>
    intro t0
    left
    exact ⟨rfl, fun k hk => absurd hk (Nat.not_lt_zero k)⟩
  | succ n ih =>
    intro t0
    by_cases h : c.matches t0 = true
    · right
      refine ⟨0, Nat.succ_pos n, ?_, ?_, fun j hj => absurd hj (Nat.not_lt_zero j)⟩
      · simp [nextLoop, h]
      · simpa using h
    · have h' : c.matches t0 = false := by
        simpa using h
      have hstep : nextLoop c (n + 1) t0 = nextLoop c n (t0 + 60) := by
        simp [nextLoop, h']
      have hshift : ∀ m : Nat, t0 + 60 + 60 * m = t0 + 60 * (m + 1) := by
        intro m; ring
      rcases ih (t0 + 60) with ⟨hz, hall⟩ | ⟨k, hk, heq, hm, hprev⟩
      · left
        refine ⟨by rw [hstep]; exact hz, ?_⟩
        intro k hk
        match k with
        | 0 => simpa using h'
        | k + 1 =>
          have := hall k (by omega)
          rw [hshift k] at this
          exact this
      · right
        refine ⟨k + 1, by omega, ?_, ?_, ?_⟩
        · rw [hstep, heq, hshift k]
        · rw [← hshift k]; exact hm
        · intro j hj
          match j with
          | 0 => simpa using h'
          | j + 1 =>
            have := hprev j (by omega)
            rw [hshift j] at this
            exact this

theorem matches_of_empty_hour (c : CronExpression) (h : c.hour = []) (t : Nat) :
    c.matches t = false := by
  simp [CronExpression.matches, h, containsVal]

theorem nextLoop_of_never_matches (c : CronExpression)
    (h : ∀ t, c.matches t = false) : ∀ (fuel t0 : Nat), nextLoop c fuel t0 = 0 := by
  intro fuel
  induction fuel with
  | zero => intro t0; rfl
  | succ n ih =>
    intro t0
    simp only [nextLoop, h t0, Bool.false_eq_true, if_false]
    exact ih (t0 + 60)

/-! ## Claim C1 -/

/-- C1 (counterexample): the claim says `Next(t)` is strictly greater than
`t` and due, for every expression `ParseCron` accepts.  The accepted
expression "* 50/1 * * *" has an empty hour set, so no time ever matches
it, and from `t = 0` its `Next` returns Go's zero time (`0`), which is not
strictly greater than `t`. -/
theorem c1_next_not_after :
    ParseCron "* 50/1 * * *" = some (Except.ok cEmptyHour) ∧
    cEmptyHour.Next 0 = 0 ∧ ¬ 0 < cEmptyHour.Next 0 := by
  have hz : cEmptyHour.Next 0 = 0 :=
    nextLoop_of_never_matches cEmptyHour (matches_of_empty_hour cEmptyHour rfl) 525600 (nextBase 0)
  exact ⟨by decide, hz, by rw [hz]; exact lt_irrefl 0⟩

/-- C1 (amended): for every cron string `ParseCron` accepts and every time
`t`, `Next(t)` either returns Go's zero time (when no minute in the
525600-minute search bound matches, which is possible because accepted
expressions can have an empty value set or an unsatisfiable date pattern)
or returns a timestamp strictly greater than `t`, truncated to minute
granularity, at which `IsDue` is true. -/
theorem c1_next_strictly_later_and_due (s : String) (c : CronExpression) (t : Nat)
    (_hacc : ParseCron s = some (Except.ok c)) :
    c.Next t = 0 ∨ (t < c.Next t ∧ c.Next t % 60 = 0 ∧ c.IsDue (c.Next t) = true) := by
  rcases nextLoop_spec c 525600 (nextBase t) with ⟨hz, _⟩ | ⟨k, _, heq, hm, _⟩
  · left
    exact hz
  · right
    have hb : nextBase t = t / 60 * 60 + 60 := rfl
    have hNext : c.Next t = nextBase t + 60 * k := heq
    refine ⟨?_, ?_, ?_⟩
    · rw [hNext, hb]; omega
    · rw [hNext, hb]; omega
    · rw [hNext]; exact hm

/-- C1 witness: "* * * * *" is accepted, and from time 0 the amended
disjunction holds (in fact its `Next 0` is 60, strictly later, minute
aligned and due). -/
theorem c1_next_strictly_later_and_due_witness :
    cStar.Next 0 = 0 ∨ (0 < cStar.Next 0 ∧ cStar.Next 0 % 60 = 0 ∧ cStar.IsDue (cStar.Next 0) = true) :=
  c1_next_strictly_later_and_due "* * * * *" cStar 0 (by decide)

/-! ## Claim C4 -/

/-- C4: `Next(from)` starts its search at `from` truncated to the minute
boundary plus one minute, probes successive minutes for at most 525600
steps, and returns Go's zero time exactly on exhaustion: either nothing in
the bound matches and the result is 0, or the result is the first probed
minute that matches. -/
theorem c4_next_search_shape (c : CronExpression) (fromT : Nat) :
    (c.Next fromT = 0 ∧ ∀ k < 525600, c.matches (fromT / 60 * 60 + 60 + 60 * k) = false) ∨
    (∃ k < 525600, c.Next fromT = fromT / 60 * 60 + 60 + 60 * k ∧
      c.matches (fromT / 60 * 60 + 60 + 60 * k) = true ∧
      ∀ j < k, c.matches (fromT / 60 * 60 + 60 + 60 * j) = false) :=
  nextLoop_spec c 525600 (nextBase fromT)

/-- C4 witness: for "* * * * *" from time 0, the search finds the very
first probed minute, 60. -/
theorem c4_next_search_shape_witness :
    (cStar.Next 0 = 0 ∧ ∀ k < 525600, cStar.matches (0 / 60 * 60 + 60 + 60 * k) = false) ∨
    (∃ k < 525600, cStar.Next 0 = 0 / 60 * 60 + 60 + 60 * k ∧
      cStar.matches (0 / 60 * 60 + 60 + 60 * k) = true ∧
      ∀ j < k, cStar.matches (0 / 60 * 60 + 60 + 60 * j) = false) :=
  c4_next_search_shape cStar 0

/-! ## Claim C7 -/

/-- C7: after every `addLog` call the log holds at most `maxLogSize`
entries, whatever was logged before; the result is exactly the suffix of
`logs ++ [log]` obtained by dropping the oldest entries (the front) down to
the bound, so the most recent entries are preserved in order, and the
default bound installed by `NewScheduler` is 1000. -/
theorem c7_addLog_bounded (maxLogSize : Nat) (logs : List TaskLog) (log : TaskLog) :
    addLog maxLogSize logs log = (logs ++ [log]).drop (logs.length + 1 - maxLogSize) ∧
    (addLog maxLogSize logs log).length ≤ maxLogSize ∧
    schedulerDefaultMaxLogSize = 1000 := by
  have hlen : (logs ++ [log]).length = logs.length + 1 := by
    simp
  have heq : addLog maxLogSize logs log = (logs ++ [log]).drop (logs.length + 1 - maxLogSize) := by
    unfold addLog
    split
    · rw [hlen]
    · rename_i hle
      rw [hlen] at hle
      rw [Nat.sub_eq_zero_of_le (by omega), List.drop_zero]
  refine ⟨heq, ?_, rfl⟩
  rw [heq, List.length_drop, hlen]
  omega

/-! ## Claim C8 -/

theorem taskRun_inv : ∀ (events : List TaskEvent) (s : TaskState),
    s.inFlight = (if s.isRunning then 1 else 0) →
    (taskRun s events).inFlight = (if (taskRun s events).isRunning then 1 else 0) := by
  intro events
  induction events with
  | nil => intro s h; exact h
  | cons e es ih =>
    intro s h
    refine ih (taskStep s e) ?_
    cases e with
    | tryStart =>
      by_cases hr : s.isRunning
      · simpa [taskStep, hr] using h
      · simpa [taskStep, hr] using h
    | finish =>
      by_cases hr : s.isRunning
      · simp [taskStep, hr] at h ⊢
        omega
      · simpa [taskStep, hr] using h

/-- C8: with each of `runTask`'s two lock-protected critical sections
taken as one atomic event, every interleaving of tick dispatches and
`RunNow` calls for one task keeps at most one handler execution of that
task in flight, because `tryStart` leaves the state unchanged (the handler
is not invoked) whenever the `IsRunning` flag is already set. -/
theorem c8_no_overlapping_runs :
    (∀ events : List TaskEvent, (taskRun taskInit events).inFlight ≤ 1) ∧
    (∀ s : TaskState, s.isRunning = true → taskStep s TaskEvent.tryStart = s) := by
  constructor
  · intro events
    have h := taskRun_inv events taskInit rfl
    rw [h]
    split <;> omega
  · intro s h
    simp [taskStep, h]

/-- C8 witness: from the state with a run in flight, a further start
attempt changes nothing; and the concrete interleaving start, start, finish
keeps at most one run in flight. -/
theorem c8_no_overlapping_runs_witness :
    taskStep ⟨true, 1⟩ TaskEvent.tryStart = ⟨true, 1⟩ ∧
    (taskRun taskInit [TaskEvent.tryStart, TaskEvent.tryStart, TaskEvent.finish]).inFlight ≤ 1 :=
  ⟨c8_no_overlapping_runs.2 ⟨true, 1⟩ rfl,
   c8_no_overlapping_runs.1 [TaskEvent.tryStart, TaskEvent.tryStart, TaskEvent.finish]⟩

/-! ## Claim C5 -/

/-- C5: one `AllowN` call on a key's token bucket first credits
`elapsed × rate` tokens clamped to `capacity` (a fresh key's bucket starts
at full capacity), then debits `n` and allows iff at least `n` tokens are
available, and on denial leaves the (refilled) token count undebited. -/
theorem c5_tokenBucket_allowN (rate capacity : ℤ) (b : Bucket) (now : ℚ) (n : ℤ) :
    TokenBucket.refill rate capacity b now
      = min (b.tokens + (now - b.lastCheck) * (rate : ℚ)) (capacity : ℚ) ∧
    (TokenBucket.newBucket capacity now).tokens = (capacity : ℚ) ∧
    ((n : ℚ) ≤ TokenBucket.refill rate capacity b now →
      TokenBucket.allowN rate capacity b now n
        = (true, ⟨TokenBucket.refill rate capacity b now - (n : ℚ), now⟩)) ∧
    (TokenBucket.refill rate capacity b now < (n : ℚ) →
      TokenBucket.allowN rate capacity b now n
        = (false, ⟨TokenBucket.refill rate capacity b now, now⟩)) := by
  refine ⟨?_, rfl, ?_, ?_⟩
  · unfold TokenBucket.refill
    split
    · rename_i h
      exact (min_eq_right h.le).symm
    · rename_i h
      exact (min_eq_left (not_lt.mp h)).symm
  · intro h
    unfold TokenBucket.allowN
    rw [if_pos h]
  · intro h
    unfold TokenBucket.allowN
    rw [if_neg (not_le.mpr h)]

/-- C5 witness: with rate 5 and capacity 10, a bucket holding 4 tokens
last checked 1 second ago refills to 9 and admits a request for 3. -/
theorem c5_tokenBucket_allowN_witness :
    TokenBucket.allowN 5 10 ⟨4, 0⟩ 1 3
      = (true, ⟨TokenBucket.refill 5 10 ⟨4, 0⟩ 1 - ((3 : ℤ) : ℚ), 1⟩) :=
  (c5_tokenBucket_allowN 5 10 ⟨4, 0⟩ 1 3).2.2.1 (by norm_num [TokenBucket.refill])

/-! ## Claim C6 -/

theorem tb_allowN_tokens_le (rate capacity : ℤ) (b : Bucket) (now : ℚ) (n : ℤ)
    (hn : 0 ≤ n) :
    (TokenBucket.allowN rate capacity b now n).2.tokens ≤ (capacity : ℚ) := by
  have hre : TokenBucket.refill rate capacity b now ≤ (capacity : ℚ) := by
    unfold TokenBucket.refill
    split
    · exact le_refl _
    · rename_i h
      exact le_of_not_lt h
  have hn' : (0 : ℚ) ≤ (n : ℚ) := by exact_mod_cast hn
  unfold TokenBucket.allowN
  split
  · show TokenBucket.refill rate capacity b now - (n : ℚ) ≤ (capacity : ℚ)
    linarith
  · exact hre

theorem tb_runOps_tokens_le (rate capacity : ℤ) :
    ∀ (ops : List Op) (st : Option Bucket),
      opsNonneg ops = true →
      (∀ b0, st = some b0 → b0.tokens ≤ (capacity : ℚ)) →
      ∀ b, TokenBucket.runOps rate capacity st ops = some b → b.tokens ≤ (capacity : ℚ) := by
  intro ops
  induction ops with
  | nil =>
    intro st _ hst b hb
    exact hst b hb
  | cons op rest ih =>
    intro st hn hst b hb
    cases op with
    | allowN now n =>
      simp only [opsNonneg, Bool.and_eq_true, decide_eq_true_eq] at hn
      simp only [TokenBucket.runOps] at hb
      refine ih _ hn.2 ?_ b hb
      intro b0 hb0
      injection hb0 with hb0
      subst hb0
      exact tb_allowN_tokens_le rate capacity _ now n hn.1
    | reset =>
      simp only [opsNonneg] at hn
      simp only [TokenBucket.runOps] at hb
      refine ih none hn ?_ b hb
      intro b0 hb0
      exact absurd hb0 (by simp)

theorem sw_allowN_length_le (limit : ℤ) (window : ℚ) (reqs : List ℚ) (now : ℚ) (n : ℤ)
    (hn : 0 ≤ n) (hlen : (reqs.length : ℤ) ≤ limit) :
    (((SlidingWindow.allowN limit window reqs now n).2).length : ℤ) ≤ limit := by
  have hf : (reqs.filter (fun r => r > now - window)).length ≤ reqs.length :=
    List.length_filter_le _ _
  unfold SlidingWindow.allowN
  split
  · rename_i h
    simp only [List.length_append, List.length_replicate]
    omega
  · dsimp only
    omega

theorem sw_runOps_length_le (limit : ℤ) (window : ℚ) :
    ∀ (ops : List Op) (reqs : List ℚ),
      opsNonneg ops = true →
      (reqs.length : ℤ) ≤ limit →
      0 ≤ limit →
      ((SlidingWindow.runOps limit window reqs ops).length : ℤ) ≤ limit := by
  intro ops
  induction ops with
  | nil =>
    intro reqs _ hlen _
    exact hlen
  | cons op rest ih =>
    intro reqs hn hlen hl
    cases op with
    | allowN now n =>
      simp only [opsNonneg, Bool.and_eq_true, decide_eq_true_eq] at hn
      simp only [SlidingWindow.runOps]
      exact ih _ hn.2 (sw_allowN_length_le limit window reqs now n hn.1 hlen) hl
    | reset =>
      simp only [opsNonneg] at hn
      simp only [SlidingWindow.runOps]
      exact ih [] hn (by simpa using hl) hl

theorem fw_allowN_count_le (limit : ℤ) (window : ℚ) (d : FixedWindowData) (now : ℚ) (n : ℤ)
    (hd : d.count ≤ limit) (hl : 0 ≤ limit) :
    (FixedWindow.allowN limit window d now n).2.count ≤ limit := by
  have hroll : (FixedWindow.rollover window d now).count ≤ limit := by
    unfold FixedWindow.rollover
    split
    · simpa using hl
    · exact hd
  unfold FixedWindow.allowN
  split
  · rename_i h
    exact h
  · exact hroll

theorem fw_runOps_count_le (limit : ℤ) (window : ℚ) :
    ∀ (ops : List Op) (st : Option FixedWindowData),
      opsNonneg ops = true →
      (∀ d0, st = some d0 → d0.count ≤ limit) →
      0 ≤ limit →
      ∀ d, FixedWindow.runOps limit window st ops = some d → d.count ≤ limit := by
  intro ops
  induction ops with
  | nil =>
    intro st _ hst _ d hd
    exact hst d hd
  | cons op rest ih =>
    intro st hn hst hl d hd
    cases op with
    | allowN now n =>
      simp only [opsNonneg, Bool.and_eq_true, decide_eq_true_eq] at hn
      simp only [FixedWindow.runOps] at hd
      refine ih _ hn.2 ?_ hl d hd
      intro d0 hd0
      injection hd0 with hd0
      subst hd0
      cases st with
      | none =>
        exact fw_allowN_count_le limit window _ now n (by simpa [FixedWindow.newData] using hl) hl
      | some dprev =>
        exact fw_allowN_count_le limit window _ now n (hst dprev rfl) hl
    | reset =>
      simp only [opsNonneg] at hn
      simp only [FixedWindow.runOps] at hd
      refine ih none hn ?_ hl d hd
      intro d0 hd0
      exact absurd hd0 (by simp)

/-- C6 (counterexample): the claim says the available quota never exceeds
the configured capacity for every sequence of calls.  On a token bucket
with rate 1 and capacity 10, the single call `AllowN(key, -1)` is allowed
(the fresh bucket's 10 tokens are ≥ -1) and leaves 11 tokens — above
capacity. -/
theorem c6_negative_n_exceeds_capacity :
    TokenBucket.runOps 1 10 none [Op.allowN 0 (-1)] = some ⟨11, 0⟩ ∧ (10 : ℚ) < 11 := by
  constructor
  · show some (TokenBucket.allowN 1 10 (TokenBucket.newBucket 10 0) 0 (-1)).2 = some ⟨11, 0⟩
    unfold TokenBucket.allowN TokenBucket.refill TokenBucket.newBucket
    norm_num
  · norm_num

/-- C6 (amended): for every sequence of `AllowN`/`Reset` calls on a key in
which every `AllowN` requests a non-negative `n` (and with non-negative
configured limits for the window limiters), the token bucket's token count
never exceeds `capacity` after a call completes, the sliding window never
holds more than `limit` timestamps, and the fixed window's counter never
exceeds `limit`; an `AllowN` with negative `n` can violate the token
bucket's bound. -/
theorem c6_quota_bounded_nonneg (rate capacity limit limitF : ℤ) (window windowF : ℚ)
    (ops : List Op) (hn : opsNonneg ops = true) (hsl : 0 ≤ limit) (hfl : 0 ≤ limitF) :
    (∀ b, TokenBucket.runOps rate capacity none ops = some b → b.tokens ≤ (capacity : ℚ)) ∧
    ((SlidingWindow.runOps limit window [] ops).length : ℤ) ≤ limit ∧
    (∀ d, FixedWindow.runOps limitF windowF none ops = some d → d.count ≤ limitF) := by
  refine ⟨?_, ?_, ?_⟩
  · exact tb_runOps_tokens_le rate capacity ops none hn (fun b0 h => absurd h (by simp))
  · exact sw_runOps_length_le limit window ops [] hn (by simpa using hsl) hsl
  · exact fw_runOps_count_le limitF windowF ops none hn (fun d0 h => absurd h (by simp)) hfl

/-- C6 witness: a concrete non-negative call sequence against all three
limiters stays within the bounds. -/
theorem c6_quota_bounded_nonneg_witness :
    (∀ b, TokenBucket.runOps 5 10 none [Op.allowN 0 1, Op.reset, Op.allowN 1 2] = some b →
      b.tokens ≤ ((10 : ℤ) : ℚ)) ∧
    ((SlidingWindow.runOps 3 1 [] [Op.allowN 0 1, Op.reset, Op.allowN 1 2]).length : ℤ) ≤ 3 ∧
    (∀ d, FixedWindow.runOps 3 1 none [Op.allowN 0 1, Op.reset, Op.allowN 1 2] = some d →
      d.count ≤ 3) :=
  c6_quota_bounded_nonneg 5 10 3 3 1 1 [Op.allowN 0 1, Op.reset, Op.allowN 1 2]
    (by decide) (by norm_num) (by norm_num)

/-! ## Claim C10 -/

/-- C10: with non-negative configuration (and, for the stateful
hypotheses, the states such limiters actually reach: non-negative bucket
tokens, a wall clock at or after the last check, at most `limit` recorded
requests or counts), `AllowN(key, n)` with `n ≤ 0` returns true on all
three limiters; the token bucket's count becomes the refilled count minus
`n` (so it rises by `-n`, possibly above capacity), the sliding window
appends nothing, and the fixed window's counter falls by `-n`. -/
theorem c10_nonpositive_n_allowed (rate capacity limit limitF : ℤ) (window windowF : ℚ)
    (b : Bucket) (reqs : List ℚ) (d : FixedWindowData) (now : ℚ) (n : ℤ)
    (hn : n ≤ 0) (htok : 0 ≤ b.tokens) (hclock : b.lastCheck ≤ now)
    (hrate : 0 ≤ rate) (hcap : 0 ≤ capacity)
    (hsw : (reqs.length : ℤ) ≤ limit)
    (hfw : d.count ≤ limitF) (hfl : 0 ≤ limitF) :
    (TokenBucket.allowN rate capacity b now n).1 = true ∧
    (TokenBucket.allowN rate capacity b now n).2.tokens
      = TokenBucket.refill rate capacity b now - (n : ℚ) ∧
    (SlidingWindow.allowN limit window reqs now n).1 = true ∧
    (SlidingWindow.allowN limit window reqs now n).2
      = reqs.filter (fun r => r > now - window) ∧
    (FixedWindow.allowN limitF windowF d now n).1 = true ∧
    (FixedWindow.allowN limitF windowF d now n).2.count
      = (FixedWindow.rollover windowF d now).count + n := by
  have hn' : (n : ℚ) ≤ 0 := by exact_mod_cast hn
  have hrefill : (0 : ℚ) ≤ TokenBucket.refill rate capacity b now := by
    unfold TokenBucket.refill
    split
    · exact_mod_cast hcap
    · have h1 : (0 : ℚ) ≤ now - b.lastCheck := by linarith
      have h2 : (0 : ℚ) ≤ (rate : ℚ) := by exact_mod_cast hrate
      nlinarith
  have htb : TokenBucket.refill rate capacity b now ≥ (n : ℚ) := by linarith
  have hfilter : ((reqs.filter (fun r => r > now - window)).length : ℤ) ≤ limit := by
    have := List.length_filter_le (fun r => r > now - window) reqs
    omega
  have hswc : ((reqs.filter (fun r => r > now - window)).length : ℤ) + n ≤ limit := by
    omega
  have hroll : (FixedWindow.rollover windowF d now).count ≤ limitF := by
    unfold FixedWindow.rollover
    split
    · simpa using hfl
    · exact hfw
  have hfwc : (FixedWindow.rollover windowF d now).count + n ≤ limitF := by omega
  refine ⟨?_, ?_, ?_, ?_, ?_, ?_⟩
  · unfold TokenBucket.allowN
    rw [if_pos htb]
  · unfold TokenBucket.allowN
    rw [if_pos htb]
  · unfold SlidingWindow.allowN
    rw [if_pos hswc]
  · unfold SlidingWindow.allowN
    rw [if_pos hswc]
    show reqs.filter (fun r => r > now - window) ++ List.replicate n.toNat now
      = reqs.filter (fun r => r > now - window)
    rw [Int.toNat_of_nonpos hn, List.replicate_zero, List.append_nil]
  · unfold FixedWindow.allowN
    rw [if_pos hfwc]
  · unfold FixedWindow.allowN
    rw [if_pos hfwc]

/-- C10 witness: with all three limiters freshly configured non-negatively,
an `AllowN` of -2 is allowed everywhere, raises the token bucket's count
and lowers the fixed window's counter. -/
theorem c10_nonpositive_n_allowed_witness :
    (TokenBucket.allowN 1 5 ⟨5, 0⟩ 0 (-2)).1 = true ∧
    (TokenBucket.allowN 1 5 ⟨5, 0⟩ 0 (-2)).2.tokens
      = TokenBucket.refill 1 5 ⟨5, 0⟩ 0 - ((-2 : ℤ) : ℚ) ∧
    (SlidingWindow.allowN 3 1 [] 0 (-2)).1 = true ∧
    (SlidingWindow.allowN 3 1 [] 0 (-2)).2 = List.filter (fun r => r > 0 - 1) [] ∧
    (FixedWindow.allowN 3 1 ⟨0, 1⟩ 0 (-2)).1 = true ∧
    (FixedWindow.allowN 3 1 ⟨0, 1⟩ 0 (-2)).2.count
      = (FixedWindow.rollover 1 ⟨0, 1⟩ 0).count + (-2) :=
  c10_nonpositive_n_allowed 1 5 3 3 1 1 ⟨5, 0⟩ [] ⟨0, 1⟩ 0 (-2)
    (by norm_num) (by norm_num) (by norm_num) (by norm_num) (by norm_num)
    (by norm_num) (by norm_num) (by norm_num)

end Clarkgo
